import Mathlib

/-!
Verification of the streaming chat core: the line-oriented wire codec
(`createChunkDecoder`, `AssistantResponse`), the incremental streamable
cells (`createStreamableUI`, `createStreamableValue`), and the `useChat`
reconciliation / roundtrip logic.

Strings from the JavaScript source are modelled as `List Char` where
structural reasoning is needed (codec layer) and as `String` in the chat
state layer.  JavaScript promise-chain side effects are modelled by
explicit state records: each `resolve(x)` of a revision is recorded by
appending `x` to a `published` list, and a thrown `Error` is modelled by
`Except.error`.
-/

/-! ### Line splitting (the `.split('\n')` step of `createChunkDecoder`) -/

/-- JavaScript `s.split('\n')` on a character list: the list of segments
between newline characters.  `splitNl [] = [[]]`, matching
`''.split('\n') = ['']`. -/
def splitNl : List Char → List (List Char)
  | [] => [[]]
  | c :: cs =>
    if c = '\n' then [] :: splitNl cs
    else
      match splitNl cs with
      | [] => [[c]]
      | s :: ss => (c :: s) :: ss

/-- Glue a segment onto the head of a segment list (used to describe how
splitting distributes over append: the last segment of the left part merges
with the first segment of the right part). -/
def glueHead (pre : List Char) : List (List Char) → List (List Char)
  | [] => [pre]
  | s :: ss => (pre ++ s) :: ss

/-- Merge two segment lists: all but the last segment of `xs`, then the last
segment of `xs` glued onto the head of `ys`. -/
def joinSplit : List (List Char) → List (List Char) → List (List Char)
  | [], ys => ys
  | [x], ys => glueHead x ys
  | x :: x' :: xs, ys => x :: joinSplit (x' :: xs) ys

/-! ### The complex chunk decoder (`createChunkDecoder(true)`)

The decoder for one chunk: decode the bytes to text (the `TextDecoder`
with `stream: true` reassembles multi-byte characters across chunk
boundaries, so the chunk is modelled at the character level), split on
line terminators, drop empty segments, and run the line decoder on each
remaining segment, dropping failures.  The line decoder is a parameter
here; the concrete `parseStreamPart` is defined below. -/

def decodeLines {α : Type} (p : List Char → Option α) (s : List Char) : List α :=
  ((splitNl s).filter (fun seg => !seg.isEmpty)).filterMap p

/-- Feed several chunks to the decoder one at a time and concatenate the
decoded events, in order. -/
def decodeChunks {α : Type} (p : List Char → Option α) : List (List Char) → List α
  | [] => []
  | c :: cs => decodeLines p c ++ decodeChunks p cs

/-! ### JSON values and a total JSON reader

`shared/stream-parts.ts` is not part of the source tree (only
`shared/utils.ts`, which imports it, is), so the per-line event reader is
modelled from the spec.  JSON numbers are kept as their raw literal
characters; nothing in the claims depends on numeric value. -/

inductive Json where
  | null
  | bool (b : Bool)
  | num (raw : List Char)
  | str (s : List Char)
  | arr (items : List Json)
  | obj (members : List (List Char × Json))

def isWsChar (c : Char) : Bool := c == ' ' || c == '\t' || c == '\n' || c == '\r'

def skipWsL (s : List Char) : List Char := s.dropWhile isWsChar

def hexValOf (c : Char) : Option Nat :=
  if '0' ≤ c ∧ c ≤ '9' then some (c.toNat - '0'.toNat)
  else if 'a' ≤ c ∧ c ≤ 'f' then some (c.toNat - 'a'.toNat + 10)
  else if 'A' ≤ c ∧ c ≤ 'F' then some (c.toNat - 'A'.toNat + 10)
  else none

def escCharOf : Char → Option Char
  | '"' => some '"'
  | '\\' => some '\\'
  | '/' => some '/'
  | 'b' => some (Char.ofNat 8)
  | 'f' => some (Char.ofNat 12)
  | 'n' => some '\n'
  | 'r' => some '\r'
  | 't' => some '\t'
  | _ => none

/-- Read the body of a JSON string after the opening quote; returns the
decoded content and what follows the closing quote.  Raw control
characters (including a raw line break) are malformed inside a JSON
string, matching `JSON.parse`. -/
def parseStringBody : Nat → List Char → Option (List Char × List Char)
  | 0, _ => none
  | _ + 1, [] => none
  | fuel + 1, c :: rest =>
    if c = '"' then some ([], rest)
    else if c = '\\' then
      match rest with
      | 'u' :: h1 :: h2 :: h3 :: h4 :: rest2 =>
        match hexValOf h1, hexValOf h2, hexValOf h3, hexValOf h4 with
        | some a, some b, some c2, some d =>
          (parseStringBody fuel rest2).map
            (fun x => (Char.ofNat (((a * 16 + b) * 16 + c2) * 16 + d) :: x.1, x.2))
        | _, _, _, _ => none
      | e :: rest2 =>
        match escCharOf e with
        | some ch => (parseStringBody fuel rest2).map (fun x => (ch :: x.1, x.2))
        | none => none
      | [] => none
    else if c.toNat < 32 then none
    else (parseStringBody fuel rest).map (fun x => (c :: x.1, x.2))

def parseIntDigits (s : List Char) : Option (List Char × List Char) :=
  match s with
  | [] => none
  | '0' :: rest => some (['0'], rest)
  | c :: rest =>
    if c.isDigit then some (c :: rest.takeWhile Char.isDigit, rest.dropWhile Char.isDigit)
    else none

def parseFracDigits (s : List Char) : Option (List Char × List Char) :=
  match s with
  | '.' :: r =>
    let ds := r.takeWhile Char.isDigit
    if ds.isEmpty then none else some ('.' :: ds, r.dropWhile Char.isDigit)
  | _ => some ([], s)

def parseExpDigits (s : List Char) : Option (List Char × List Char) :=
  match s with
  | c :: r =>
    if c = 'e' ∨ c = 'E' then
      let rest := match r with
        | '+' :: r2 => (['+'], r2)
        | '-' :: r2 => (['-'], r2)
        | _ => (([] : List Char), r)
      let ds := rest.2.takeWhile Char.isDigit
      if ds.isEmpty then none
      else some (c :: rest.1 ++ ds, rest.2.dropWhile Char.isDigit)
    else some ([], s)
  | [] => some ([], [])

/-- Read a JSON numeric literal, returned as its raw characters. -/
def parseNumLit (s : List Char) : Option (List Char × List Char) :=
  let sgn := match s with
    | '-' :: r => ((['-'] : List Char), r)
    | _ => (([] : List Char), s)
  match parseIntDigits sgn.2 with
  | none => none
  | some (ip, s2) =>
    match parseFracDigits s2 with
    | none => none
    | some (fp, s3) =>
      match parseExpDigits s3 with
      | none => none
      | some (ep, s4) => some (sgn.1 ++ ip ++ fp ++ ep, s4)

mutual

def parseJsonVal : Nat → List Char → Option (Json × List Char)
  | 0, _ => none
  | fuel + 1, s =>
    match skipWsL s with
    | 'n' :: 'u' :: 'l' :: 'l' :: rest => some (.null, rest)
    | 't' :: 'r' :: 'u' :: 'e' :: rest => some (.bool true, rest)
    | 'f' :: 'a' :: 'l' :: 's' :: 'e' :: rest => some (.bool false, rest)
    | '"' :: rest =>
      (parseStringBody (rest.length + 1) rest).map (fun x => (.str x.1, x.2))
    | '[' :: rest =>
      (match skipWsL rest with
       | ']' :: rem => some (.arr [], rem)
       | _ =>
         match parseArrayItems fuel rest with
         | some (items, rem) => some (.arr items, rem)
         | none => none)
    | '{' :: rest =>
      (match skipWsL rest with
       | '}' :: rem => some (.obj [], rem)
       | _ =>
         match parseObjMembers fuel rest with
         | some (ms, rem) => some (.obj ms, rem)
         | none => none)
    | c :: rest =>
      if c = '-' ∨ c.isDigit then
        (parseNumLit (c :: rest)).map (fun x => (.num x.1, x.2))
      else none
    | [] => none

def parseArrayItems : Nat → List Char → Option (List Json × List Char)
  | 0, _ => none
  | fuel + 1, s =>
    match parseJsonVal fuel s with
    | none => none
    | some (v, rem) =>
      match skipWsL rem with
      | ',' :: rem2 =>
        (match parseArrayItems fuel rem2 with
         | some (vs, rem3) => some (v :: vs, rem3)
         | none => none)
      | ']' :: rem2 => some ([v], rem2)
      | _ => none

def parseObjMembers : Nat → List Char → Option (List (List Char × Json) × List Char)
  | 0, _ => none
  | fuel + 1, s =>
    match skipWsL s with
    | '"' :: rest =>
      (match parseStringBody (rest.length + 1) rest with
       | none => none
       | some (key, rem) =>
         match skipWsL rem with
         | ':' :: rem2 =>
           (match parseJsonVal fuel rem2 with
            | none => none
            | some (v, rem3) =>
              match skipWsL rem3 with
              | ',' :: rem4 =>
                (match parseObjMembers fuel rem4 with
                 | some (ms, rem5) => some ((key, v) :: ms, rem5)
                 | none => none)
              | '}' :: rem4 => some ([(key, v)], rem4)
              | _ => none)
         | _ => none)
    | _ => none

end

/-- Parse a whole character sequence as one JSON value, allowing
surrounding whitespace only, as `JSON.parse` does. -/
def parseJson (s : List Char) : Option Json :=
  match parseJsonVal (2 * s.length + 2) s with
  | some (j, rest) => if (skipWsL rest).isEmpty then some j else none
  | none => none

/-! ### Stream parts (the per-line event taxonomy) -/

/-- The event-kind table of the wire format: prefix `0` is an assistant
message object, `1` a legacy function call, `2` an auxiliary data chunk,
`3` a status object, `4` a thread identifier, `5` a tool-calls array,
`6` a message-annotations array, `7` a tool-call-arguments delta. -/
inductive StreamPartKind where
  | message
  | functionCall
  | data
  | status
  | threadId
  | toolCalls
  | msgAnnotations
  | toolCallDelta
deriving DecidableEq

def codeToKind (code : List Char) : Option StreamPartKind :=
  if code = ['0'] then some .message
  else if code = ['1'] then some .functionCall
  else if code = ['2'] then some .data
  else if code = ['3'] then some .status
  else if code = ['4'] then some .threadId
  else if code = ['5'] then some .toolCalls
  else if code = ['6'] then some .msgAnnotations
  else if code = ['7'] then some .toolCallDelta
  else none

structure StreamPart where
  kind : StreamPartKind
  payload : Json

/-- Split a line at its first colon: the characters before it and the
characters after it. -/
def breakAtColon : List Char → Option (List Char × List Char)
  | [] => none
  | c :: rest =>
    if c = ':' then some ([], rest)
    else (breakAtColon rest).map (fun x => (c :: x.1, x.2))

/-- Modelled from the spec: the per-line event reader of
`shared/stream-parts.ts`, which is missing from the source tree.  Per the
spec, the prefix before the first colon is looked up in the event-kind
table and the remainder is parsed as JSON; an unknown prefix or malformed
JSON yields no event for that line. -/
def parseStreamPart (line : List Char) : Option StreamPart :=
  match breakAtColon line with
  | none => none
  | some (code, rest) =>
    match codeToKind code with
    | none => none
    | some k => (parseJson rest).map (fun j => ⟨k, j⟩)

/-- The complex chunk decoder `createChunkDecoder(true)` applied to one
chunk: split the decoded text on line terminators, drop empty segments,
and map the line reader over the rest, dropping failures. -/
def chunkDecode (s : List Char) : List StreamPart := decodeLines parseStreamPart s

/-- Feeding chunks one at a time to `createChunkDecoder(true)` and
concatenating the event lists. -/
def chunkDecodeAll (chunks : List (List Char)) : List StreamPart :=
  decodeChunks parseStreamPart chunks

/-! ### The `AssistantResponse` encoder (`examples/next-openai/.../AssistantResponse.ts`)

Each `send*` helper enqueues the text
`<prefix>: <JSON.stringify(payload)>` followed by two line breaks. -/

def hexDigitChar (n : Nat) : Char :=
  if n < 10 then Char.ofNat ('0'.toNat + n) else Char.ofNat ('a'.toNat + n - 10)

/-- One character of `JSON.stringify` string escaping. -/
def jsonEscapeChar (c : Char) : List Char :=
  if c = '"' then ['\\', '"']
  else if c = '\\' then ['\\', '\\']
  else if c = '\n' then ['\\', 'n']
  else if c = '\r' then ['\\', 'r']
  else if c = '\t' then ['\\', 't']
  else if c.toNat = 8 then ['\\', 'b']
  else if c.toNat = 12 then ['\\', 'f']
  else if c.toNat < 32 then
    ['\\', 'u', '0', '0', hexDigitChar (c.toNat / 16), hexDigitChar (c.toNat % 16)]
  else [c]

/-- `JSON.stringify` of a string value. -/
def jsonStrEnc (s : List Char) : List Char :=
  '"' :: (s.map jsonEscapeChar).flatten ++ ['"']

inductive AssistantStatusKind where
  | inProgress
  | complete
  | failed
deriving DecidableEq

def statusKindText : AssistantStatusKind → List Char
  | .inProgress => "in_progress".data
  | .complete => "complete".data
  | .failed => "failed".data

structure AssistantStatus where
  status : AssistantStatusKind
  information : Option (List Char)

/-- The optional `information` member: omitted when `undefined`. -/
def statusInfoPart : Option (List Char) → List Char
  | none => []
  | some i => ',' :: "\"information\":".data ++ jsonStrEnc i

/-- `JSON.stringify({status, information?})`; an `undefined` field is
omitted, and keys appear in declaration order. -/
def statusJsonEnc (st : AssistantStatus) : List Char :=
  '{' :: "\"status\":".data ++ jsonStrEnc (statusKindText st.status) ++
    statusInfoPart st.information ++ ['}']

/-- An assistant message for the encoder: its id and the text values of
its content items (the `role` is the constant `'assistant'` and every
content item has shape `{type: 'text', text: {value}}`). -/
structure AssistantMessage where
  id : List Char
  content : List (List Char)

def contentItemEnc (v : List Char) : List Char :=
  '{' :: "\"type\":\"text\",\"text\":".data ++
    ('{' :: "\"value\":".data ++ jsonStrEnc v ++ ['}']) ++ ['}']

def commaSep : List (List Char) → List Char
  | [] => []
  | [x] => x
  | x :: y :: rest => x ++ ',' :: commaSep (y :: rest)

def messageJsonEnc (m : AssistantMessage) : List Char :=
  '{' :: "\"id\":".data ++ jsonStrEnc m.id ++
    ",\"role\":\"assistant\",\"content\":[".data ++
    commaSep (m.content.map contentItemEnc) ++ [']', '}']

def sendStatusChunk (st : AssistantStatus) : List Char :=
  '3' :: ':' :: ' ' :: statusJsonEnc st ++ ['\n', '\n']

def sendThreadIdChunk (t : List Char) : List Char :=
  '4' :: ':' :: ' ' :: jsonStrEnc t ++ ['\n', '\n']

def sendMessageChunk (m : AssistantMessage) : List Char :=
  '0' :: ':' :: ' ' :: messageJsonEnc m ++ ['\n', '\n']

/-! ### JavaScript runtime values for the streamable value cell -/

/-- Just enough of the JavaScript value universe for the value cell:
`typeof x === 'string'` holds exactly for `str`, and object identity is
modelled by an id. -/
inductive JSVal where
  | undef
  | str (s : List Char)
  | obj (id : Nat)
deriving DecidableEq

/-! ### `createStreamableUI`

The promise chain is modelled by the list of revision records the cell
has resolved so far (`published`), in order; `resolve({value, done,
append?, next})` appends a record whose `hasNext` notes whether a `next`
promise was attached, and `reject(error)` is recorded in `rejectedWith`.
The idle-warning timer is real-time developer diagnostics and is not
modelled. -/

structure UIRev (α : Type) where
  value : α
  done : Bool
  append : Bool
  hasNext : Bool
deriving DecidableEq

structure UICell (α : Type) where
  currentValue : α
  closed : Bool
  published : List (UIRev α)
  rejectedWith : Option JSVal
deriving DecidableEq

def createStreamableUI {α : Type} (initialValue : α) : UICell α :=
  ⟨initialValue, false, [], none⟩

/-- `update`: throws on a closed cell; a referentially-identical value is
a no-op (timer reset aside); otherwise resolves the open tail with
`{value, done: false, next}`. -/
def UICell.update {α : Type} [DecidableEq α] (c : UICell α) (value : α) :
    Except String (UICell α) :=
  if c.closed then Except.error ".update(): UI stream is already closed."
  else if value = c.currentValue then Except.ok c
  else
    Except.ok { c with
      currentValue := value,
      published := c.published ++ [⟨value, false, false, true⟩] }

/-- `append`: like `update` but with the append flag and no identity
check. -/
def UICell.append {α : Type} (c : UICell α) (value : α) : Except String (UICell α) :=
  if c.closed then Except.error ".append(): UI stream is already closed."
  else
    Except.ok { c with
      currentValue := value,
      published := c.published ++ [⟨value, false, true, true⟩] }

/-- `error`: throws on a closed cell; otherwise closes the cell and
rejects the open tail. -/
def UICell.error {α : Type} (c : UICell α) (e : JSVal) : Except String (UICell α) :=
  if c.closed then Except.error ".error(): UI stream is already closed."
  else Except.ok { c with closed := true, rejectedWith := some e }

/-- `done`: throws on a closed cell; otherwise closes the cell and
resolves the open tail with `{value: arg ?? currentValue, done: true}`
and no `next`. -/
def UICell.done {α : Type} (c : UICell α) (arg : Option α) : Except String (UICell α) :=
  if c.closed then Except.error ".done(): UI stream is already closed."
  else
    match arg with
    | some v =>
      Except.ok { c with
        closed := true,
        published := c.published ++ [⟨v, true, false, false⟩] }
    | none =>
      Except.ok { c with
        closed := true,
        published := c.published ++ [⟨c.currentValue, true, false, false⟩] }

/-! ### `createStreamableValue` -/

/-- One wrapped `StreamableValue` object as resolved to a reader: which
of the optional fields `curr` / `diff` / `error` are present, whether a
`next` promise is attached, and whether the `type` tag of the initial
chunk is present. -/
structure ValueRev where
  curr : Option JSVal
  diff : Option (Nat × List Char)
  errVal : Option JSVal
  hasNext : Bool
  typed : Bool
deriving DecidableEq

structure ValueCell where
  closed : Bool
  currentValue : JSVal
  currentError : Option JSVal
  hasCurrentPromise : Bool
  currentPatchValue : Option (Nat × List Char)
  published : List ValueRev
deriving DecidableEq

def createStreamableValue (initialValue : JSVal) : ValueCell :=
  ⟨false, initialValue, none, true, none, []⟩

/-- The patch computation inside `updateValueStates`: when the new and
the previous value are both strings and the new one starts with the old
one, the patch is `[0, newValue.slice(oldValue.length)]`. -/
def streamablePatch (currentValue value : JSVal) : Option (Nat × List Char) :=
  match value, currentValue with
  | .str v, .str c => if c.isPrefixOf v then some (0, v.drop c.length) else none
  | _, _ => none

/-- `updateValueStates`: reset `currentPatchValue`, set it when a patch
applies, and store the new `currentValue`. -/
def updateValueStates (st : ValueCell) (value : JSVal) : ValueCell :=
  { st with
    currentPatchValue := streamablePatch st.currentValue value,
    currentValue := value }

/-- `createWrapped`: an error wins; otherwise a patch is sent when one is
available and this is not the initial chunk; otherwise the full current
value; plus the `next` promise when one is live and the `type` tag on the
initial chunk. -/
def createWrapped (st : ValueCell) (initialChunk : Bool) : ValueRev :=
  let base : ValueRev :=
    match st.currentError with
    | some e => ⟨none, none, some e, false, false⟩
    | none =>
      match st.currentPatchValue, initialChunk with
      | some p, false => ⟨none, some p, none, false, false⟩
      | _, _ => ⟨some st.currentValue, none, none, false, false⟩
  { base with hasNext := st.hasCurrentPromise, typed := initialChunk }

/-- The `value` getter returns `createWrapped(true)`. -/
def ValueCell.value (st : ValueCell) : ValueRev := createWrapped st true

/-- `update`: throws on a closed cell; otherwise runs `updateValueStates`,
installs a fresh open promise and resolves the previous one with
`createWrapped()`. -/
def ValueCell.update (st : ValueCell) (value : JSVal) : Except String ValueCell :=
  if st.closed then Except.error ".update(): Value stream is already closed."
  else
    let st1 := { updateValueStates st value with hasCurrentPromise := true }
    Except.ok { st1 with published := st1.published ++ [createWrapped st1 false] }

/-- `error`: throws on a closed cell; otherwise closes the cell, clears
the promise and resolves the open tail with `{error}`. -/
def ValueCell.error (st : ValueCell) (e : JSVal) : Except String ValueCell :=
  if st.closed then Except.error ".error(): Value stream is already closed."
  else
    Except.ok { st with
      closed := true,
      currentError := some e,
      hasCurrentPromise := false,
      published := st.published ++ [⟨none, none, some e, false, false⟩] }

/-- `done`: throws on a closed cell; otherwise closes the cell and clears
the promise; with an argument it resolves the open tail with
`createWrapped()` after `updateValueStates(arg)`, and with no argument it
resolves the open tail with the empty object. -/
def ValueCell.done (st : ValueCell) (arg : Option JSVal) : Except String ValueCell :=
  if st.closed then Except.error ".done(): Value stream is already closed."
  else
    match arg with
    | some v =>
      let st1 := { updateValueStates st v with closed := true, hasCurrentPromise := false }
      Except.ok { st1 with published := st1.published ++ [createWrapped st1 false] }
    | none =>
      Except.ok { st with
        closed := true,
        hasCurrentPromise := false,
        published := st.published ++ [⟨none, none, none, false, false⟩] }

/-- Modelled from the spec: the client-side patch application rule the
spec states for the reader, `local = local.slice(0, offset) + suffix`,
reading the patch as `(offset, suffix)`. -/
def applyPatchSpec (localValue : List Char) (p : Nat × List Char) : List Char :=
  localValue.take p.1 ++ p.2

/-- Patch application with the first component read as the patch-type tag
(`0` = append) rather than an offset: concatenate the suffix. -/
def applyPatchAppend (localValue : List Char) (p : Nat × List Char) : List Char :=
  localValue ++ p.2

/-- Whether an `Except`-modelled call threw. -/
def isThrown {β : Type} : Except String β → Bool
  | Except.error _ => true
  | Except.ok _ => false

/-! ### `useChat` conversation state and the roundtrip controller

`Message` carries the fields the roundtrip logic inspects.  The request
cycle itself (`callChatApi` / `processChatStream`, which are imported by
the hook but missing from the source tree) is modelled from the spec as
`runCycle`: an optimistic update to the request messages, per-delta
merges of one streaming assistant message, rollback to the pre-request
snapshot on failure, and kept partial content on cancellation. -/

inductive Role where
  | system
  | user
  | assistant
deriving DecidableEq

structure ToolInvocation where
  toolCallId : String
  toolName : String
  args : String
  result : Option String
deriving DecidableEq

structure Message where
  id : String
  role : Role
  content : String
  toolInvocations : Option (List ToolInvocation)
deriving DecidableEq

/-- The message has role assistant, a present tool-invocation table that
is non-empty, and every invocation carries a result. -/
def isAssistantMessageWithCompletedToolCalls (message : Message) : Bool :=
  message.role = Role.assistant &&
    (match message.toolInvocations with
     | none => false
     | some tis => decide (0 < tis.length) && tis.all (fun ti => ti.result.isSome))

def countLeadingAssistants : List Message → Nat
  | [] => 0
  | m :: rest => if m.role = Role.assistant then countLeadingAssistants rest + 1 else 0

/-- The number of trailing assistant messages, counted from the end until
the first non-assistant message. -/
def countTrailingAssistantMessages (messages : List Message) : Nat :=
  countLeadingAssistants messages.reverse

/-- The auto-submit condition evaluated at the end of `triggerRequest`:
there is a last message, the roundtrip feature is enabled, the last
message is an assistant message with completed tool calls, and the
trailing-assistant count does not exceed the bound. -/
def autoSubmitCheck (messages : List Message) (maxAutomaticRoundtrips : Nat) : Bool :=
  match messages.getLast? with
  | none => false
  | some lastMessage =>
    decide (0 < maxAutomaticRoundtrips) &&
      isAssistantMessageWithCompletedToolCalls lastMessage &&
      decide (countTrailingAssistantMessages messages ≤ maxAutomaticRoundtrips)

inductive CycleEvent where
  | textDelta (s : String)
  | fail
  | cancel
deriving DecidableEq

inductive CycleOutcome where
  | success
  | failure
  | aborted
deriving DecidableEq

/-- The assistant message materialized for the streaming text of one
cycle. -/
def mkAssistantMessage (content : String) : Message :=
  ⟨"reply", Role.assistant, content, none⟩

/-- The merged view during a cycle: the request messages, plus the
streaming assistant message once a first delta has arrived. -/
def mergedMessages (req : List Message) : Option String → List Message
  | none => req
  | some c => req ++ [mkAssistantMessage c]

/-- Modelled from the spec: one request cycle (`getStreamedResponse` via
`callChatApi`, which is not in the source tree).  The optimistic update
has already replaced the state with the request messages; each text delta
appends to the streaming assistant message's content and re-merges; a
transport fault or failure event restores the pre-request snapshot
(`restoreMessagesOnFailure`); an abort keeps whatever was merged. -/
def runCycleAux (prev req : List Message) :
    Option String → List CycleEvent → CycleOutcome × List Message
  | acc, [] => (CycleOutcome.success, mergedMessages req acc)
  | acc, CycleEvent.textDelta s :: rest =>
    runCycleAux prev req (some ((acc.getD "") ++ s)) rest
  | _, CycleEvent.fail :: _ => (CycleOutcome.failure, prev)
  | acc, CycleEvent.cancel :: _ => (CycleOutcome.aborted, mergedMessages req acc)

def runCycle (prev req : List Message) (events : List CycleEvent) :
    CycleOutcome × List Message :=
  runCycleAux prev req none events

/-- `triggerRequest`: run one cycle; on an abort error return at once
(the auto-submit check is skipped); otherwise evaluate the auto-submit
condition and, when it holds, re-dispatch with the updated messages.  The
result is the final message list and the number of automatic
re-dispatches; `env` gives the event stream served to the n-th cycle and
`fuel` bounds the recursion depth of the model. -/
def triggerRequestModel (env : Nat → List CycleEvent) (maxAutomaticRoundtrips : Nat) :
    Nat → Nat → List Message → List Message → List Message × Nat
  | 0, _, current, _ => (current, 0)
  | fuel + 1, idx, current, req =>
    let r := runCycle current req (env idx)
    match r.1 with
    | CycleOutcome.aborted => (r.2, 0)
    | _ =>
      if autoSubmitCheck r.2 maxAutomaticRoundtrips then
        let next := triggerRequestModel env maxAutomaticRoundtrips fuel (idx + 1) r.2 r.2
        (next.1, next.2 + 1)
      else (r.2, 0)

/-- `experimental_addToolResult`'s message rewrite: attach the result to
the matching invocation of the last message when that message is an
assistant message with a present tool-invocation table. -/
def attachToolResult (messages : List Message) (toolCallId : String) (result : String) :
    List Message :=
  messages.enum.map (fun p =>
    if p.1 = messages.length - 1 ∧ p.2.role = Role.assistant ∧ p.2.toolInvocations.isSome then
      { p.2 with
        toolInvocations := p.2.toolInvocations.map (fun tis =>
          tis.map (fun ti =>
            if ti.toolCallId = toolCallId then { ti with result := some result } else ti)) }
    else p.2)

/-- `experimental_addToolResult`: rewrite the messages, then dispatch a
request when the last message is an assistant message with completed tool
calls.  Returns the final messages and the total number of automatic
re-dispatches (the dispatch issued here included). -/
def addToolResultModel (env : Nat → List CycleEvent) (maxAutomaticRoundtrips fuel : Nat)
    (messages : List Message) (toolCallId result : String) : List Message × Nat :=
  let updated := attachToolResult messages toolCallId result
  match updated.getLast? with
  | some lastMessage =>
    if isAssistantMessageWithCompletedToolCalls lastMessage then
      let r := triggerRequestModel env maxAutomaticRoundtrips fuel 0 updated updated
      (r.1, r.2 + 1)
    else (updated, 0)
  | none => (updated, 0)

/-- `handleSubmit`: an empty input returns before appending or
dispatching; otherwise a user message is appended, a request dispatched
and the input cleared.  Returns the final messages, the input value and
the number of requests dispatched directly by this submission. -/
def handleSubmitModel (env : Nat → List CycleEvent) (maxAutomaticRoundtrips fuel : Nat)
    (input : String) (messages : List Message) : List Message × String × Nat :=
  if input = "" then (messages, input, 0)
  else
    let req := messages ++ [⟨"submitted", Role.user, input, none⟩]
    let r := triggerRequestModel env maxAutomaticRoundtrips fuel 0 messages req
    (r.1, "", 1)

def c3ScenarioMessages : List Message :=
  [⟨"u1", Role.user, "hi", none⟩,
   ⟨"a1", Role.assistant, "", some [⟨"t1", "lookup", "q", none⟩]⟩]

def c3CompletedMessages : List Message :=
  [⟨"u1", Role.user, "hi", none⟩,
   ⟨"a1", Role.assistant, "", some [⟨"t1", "lookup", "q", some "res"⟩]⟩]

theorem splitNl_ne_nil (l : List Char) : splitNl l ≠ [] := by
  match l with
  | [] => simp [splitNl]
  | c :: cs =>
    rw [splitNl]
    by_cases h : c = '\n'
    · simp [h]
    · simp only [h, if_false]
      cases splitNl cs <;> simp

theorem splitNl_append (a b : List Char) :
    splitNl (a ++ b) = joinSplit (splitNl a) (splitNl b) := by
  induction a with
  | nil =>
    rw [List.nil_append]
    cases h : splitNl b with
    | nil => exact absurd h (splitNl_ne_nil b)
    | cons s ss => simp [splitNl, joinSplit, glueHead, h]
  | cons c cs ih =>
    rw [List.cons_append]
    by_cases h : c = '\n'
    · subst h
      simp only [splitNl, if_pos rfl]
      rw [ih]
      cases h2 : splitNl cs with
      | nil => exact absurd h2 (splitNl_ne_nil cs)
      | cons s ss => rfl
    · simp only [splitNl, if_neg h]
      rw [ih]
      cases h2 : splitNl cs with
      | nil => exact absurd h2 (splitNl_ne_nil cs)
      | cons s ss =>
        cases ss with
        | nil =>
          cases h3 : splitNl b with
          | nil => exact absurd h3 (splitNl_ne_nil b)
          | cons t ts => simp [joinSplit, glueHead, h3]
        | cons s2 ss2 => simp [joinSplit]

theorem splitNl_cons_ne_single_nil (x : Char) (xs : List Char) :
    splitNl (x :: xs) ≠ [[]] := by
  rw [splitNl]
  by_cases h : x = '\n'
  · simp only [h, if_pos rfl]
    intro hcontra
    exact splitNl_ne_nil xs (List.cons.inj hcontra).2
  · simp only [h, if_false]
    cases splitNl xs <;> simp

theorem splitNl_cons_nl (cs : List Char) : splitNl ('\n' :: cs) = [] :: splitNl cs := by
  rw [splitNl]
  simp

theorem splitNl_cons_other (c : Char) (cs : List Char) (h : ¬c = '\n') :
    splitNl (c :: cs) =
      match splitNl cs with
      | [] => [[c]]
      | s :: ss => (c :: s) :: ss := by
  rw [splitNl]
  simp [h]

theorem splitNl_getLast_of_nl :
    ∀ (a : List Char), a.getLast? = some '\n' → (splitNl a).getLast? = some [] := by
  intro a
  induction a with
  | nil => simp
  | cons c cs ih =>
    intro h
    cases cs with
    | nil =>
      have hc : c = '\n' := by simpa using h
      subst hc
      rfl
    | cons c2 cs2 =>
      have h' : (c2 :: cs2).getLast? = some '\n' := by
        rwa [List.getLast?_cons_cons] at h
      have ihh := ih h'
      by_cases hc : c = '\n'
      · subst hc
        rw [splitNl_cons_nl]
        cases h2 : splitNl (c2 :: cs2) with
        | nil => exact absurd h2 (splitNl_ne_nil _)
        | cons s ss =>
          rw [h2] at ihh
          rw [List.getLast?_cons_cons]
          exact ihh
      · rw [splitNl_cons_other c _ hc]
        cases h2 : splitNl (c2 :: cs2) with
        | nil => exact absurd h2 (splitNl_ne_nil _)
        | cons s ss =>
          rw [h2] at ihh
          show ((c :: s) :: ss).getLast? = some []
          cases ss with
          | nil =>
            have hs : s = [] := by simpa using ihh
            subst hs
            exact absurd h2 (splitNl_cons_ne_single_nil c2 cs2)
          | cons s2 ss2 =>
            rw [List.getLast?_cons_cons]
            rw [List.getLast?_cons_cons] at ihh
            exact ihh

theorem joinSplit_last_nil :
    ∀ (xs ys : List (List Char)), xs.getLast? = some [] → ys ≠ [] →
      joinSplit xs ys = xs.dropLast ++ ys := by
  intro xs
  induction xs with
  | nil => intro ys h; simp at h
  | cons x xs ih =>
    intro ys h hys
    cases xs with
    | nil =>
      have hx : x = [] := by simpa using h
      subst hx
      cases ys with
      | nil => exact absurd rfl hys
      | cons y ys' => simp [joinSplit, glueHead]
    | cons x2 xs2 =>
      have h' : (x2 :: xs2).getLast? = some [] := by
        rwa [List.getLast?_cons_cons] at h
      rw [show joinSplit (x :: x2 :: xs2) ys = x :: joinSplit (x2 :: xs2) ys from rfl,
        ih ys h' hys]
      rfl

theorem decodeLines_append {α : Type} (p : List Char → Option α) (a b : List Char)
    (h : a.getLast? = some '\n') :
    decodeLines p (a ++ b) = decodeLines p a ++ decodeLines p b := by
  unfold decodeLines
  rw [splitNl_append,
    joinSplit_last_nil _ _ (splitNl_getLast_of_nl a h) (splitNl_ne_nil b)]
  have hne := splitNl_ne_nil a
  have hlast : (splitNl a).getLast hne = [] := by
    have hx := List.getLast?_eq_getLast (splitNl a) hne
    rw [splitNl_getLast_of_nl a h] at hx
    exact (Option.some.inj hx).symm
  conv_rhs => rw [show splitNl a = (splitNl a).dropLast ++ [[]] by
    rw [← hlast]; exact (List.dropLast_append_getLast hne).symm]
  simp [List.filter_append, List.filterMap_append]

/-- When every chunk boundary falls right after a line terminator (each
chunk is empty or ends with a newline), chunked decoding agrees with
decoding the concatenated stream in one piece. -/
theorem decodeChunks_eq_whole {α : Type} (p : List Char → Option α) :
    ∀ (chunks : List (List Char)),
      (∀ c ∈ chunks, c = [] ∨ c.getLast? = some '\n') →
      decodeChunks p chunks = decodeLines p chunks.flatten := by
  intro chunks
  induction chunks with
  | nil => intro _; simp [decodeChunks, decodeLines, splitNl]
  | cons c cs ih =>
    intro h
    have hc := h c (List.mem_cons_self c cs)
    have hcs : ∀ x ∈ cs, x = [] ∨ x.getLast? = some '\n' :=
      fun x hx => h x (List.mem_cons_of_mem c hx)
    rw [List.flatten_cons]
    cases hc with
    | inl hnil =>
      subst hnil
      rw [List.nil_append]
      have : decodeLines p ([] : List Char) = [] := by
        simp [decodeLines, splitNl]
      rw [show decodeChunks p ([] :: cs) = decodeLines p [] ++ decodeChunks p cs from rfl,
        this, List.nil_append, ih hcs]
    | inr hnl =>
      rw [decodeLines_append p c cs.flatten hnl,
        show decodeChunks p (c :: cs) = decodeLines p c ++ decodeChunks p cs from rfl,
        ih hcs]

/-! ### Helper lemmas -/

theorem runCycleAux_fail (prev req : List Message) (deltas : List String)
    (rest : List CycleEvent) :
    ∀ (acc : Option String),
      runCycleAux prev req acc (deltas.map CycleEvent.textDelta ++ CycleEvent.fail :: rest) =
        (CycleOutcome.failure, prev) := by
  induction deltas with
  | nil => intro acc; rfl
  | cons d ds ih => intro acc; exact ih (some ((acc.getD "") ++ d))

theorem runCycleAux_cancel (prev req : List Message) (rest : List CycleEvent) :
    ∀ (ds : List String) (c : String),
      runCycleAux prev req (some c)
          (ds.map CycleEvent.textDelta ++ CycleEvent.cancel :: rest) =
        (CycleOutcome.aborted,
          req ++ [mkAssistantMessage (ds.foldl (fun a b => a ++ b) c)]) := by
  intro ds
  induction ds with
  | nil => intro c; rfl
  | cons d ds ih => intro c; exact ih (c ++ d)

theorem isPrefixOf_append_drop :
    ∀ (a b : List Char), a.isPrefixOf b = true → a ++ b.drop a.length = b := by
  intro a
  induction a with
  | nil => intro b _; rfl
  | cons c cs ih =>
    intro b h
    cases b with
    | nil => exact absurd h (by simp [List.isPrefixOf])
    | cons d ds =>
      have h2 : (c == d && cs.isPrefixOf ds) = true := h
      rw [Bool.and_eq_true] at h2
      rcases h2 with ⟨hcd, hrec⟩
      have hcd2 : c = d := by simpa using hcd
      subst hcd2
      show c :: (cs ++ (c :: ds).drop (cs.length + 1)) = c :: ds
      rw [List.drop_succ_cons, ih ds hrec]

/-! ### Claim theorems -/

/-- Claim C1, counterexample: for `a = "x"`, `b = "xy"` the cell computes
the patch `[0, "y"]`, and applying it to `a` with the rule
`local = local.slice(0, offset) + suffix` yields `"y"`, not `b`. -/
theorem c1_spec_rule_fails :
    streamablePatch (JSVal.str ['x']) (JSVal.str ['x', 'y']) = some (0, ['y']) ∧
    applyPatchSpec ['x'] (0, ['y']) = ['y'] ∧
    applyPatchSpec ['x'] (0, ['y']) ≠ ['x', 'y'] := by
  refine ⟨rfl, rfl, ?_⟩
  decide

/-- Claim C1, amended: the first patch component is the constant `0`, a
patch-type tag rather than an offset; applying the patch by appending its
suffix (`local = local + suffix`) recovers exactly `b` whenever `b`
starts with `a`. -/
theorem c1_patch_roundtrip (a b : List Char) (h : a.isPrefixOf b = true) :
    streamablePatch (JSVal.str a) (JSVal.str b) = some (0, b.drop a.length) ∧
    applyPatchAppend a (0, b.drop a.length) = b := by
  constructor
  · simp [streamablePatch, h]
  · exact isPrefixOf_append_drop a b h

/-- Witness for C1 at `a = "a"`, `b = "ab"`. -/
theorem c1_patch_roundtrip_witness :
    streamablePatch (JSVal.str ['a']) (JSVal.str ['a', 'b']) =
      some (0, (['a', 'b'] : List Char).drop (['a'] : List Char).length) ∧
    applyPatchAppend ['a'] (0, (['a', 'b'] : List Char).drop (['a'] : List Char).length) =
      ['a', 'b'] :=
  c1_patch_roundtrip ['a'] ['a', 'b'] (by decide)

/-- Claim C2, counterexample: splitting the single-line stream
`0:"hello"\n` into the chunks `0:"he` and `llo"\n` makes the decoder
parse the partial line `0:"he` immediately (it fails and is dropped) and
then see `llo"` as a line with no known prefix, so the chunked run yields
no event while the whole stream yields one. -/
theorem c2_chunk_boundary_dependence :
    chunkDecodeAll [['0', ':', '"', 'h', 'e'], ['l', 'l', 'o', '"', '\n']] = [] ∧
    chunkDecode (['0', ':', '"', 'h', 'e'] ++ ['l', 'l', 'o', '"', '\n']) =
      [⟨StreamPartKind.message, Json.str ['h', 'e', 'l', 'l', 'o']⟩] ∧
    ([] : List StreamPart) ≠ [⟨StreamPartKind.message, Json.str ['h', 'e', 'l', 'l', 'o']⟩] :=
  ⟨rfl, rfl, fun h => List.noConfusion h⟩

/-- Claim C2, amended: the decoder has no carry-over line buffer — a
partial line at the end of a chunk is parsed (and dropped as malformed)
immediately, not preserved.  Chunk-boundary independence holds exactly
when every chunk boundary falls right after a line terminator: if each
chunk is empty or ends with a newline, feeding the chunks one at a time
yields the same event sequence as feeding the whole stream at once. -/
theorem c2_chunked_eq_whole_of_line_aligned (chunks : List (List Char))
    (h : ∀ c ∈ chunks, c = [] ∨ c.getLast? = some '\n') :
    chunkDecodeAll chunks = chunkDecode chunks.flatten :=
  decodeChunks_eq_whole parseStreamPart chunks h

/-- Witness for C2 on the chunks `0:"a"\n` and the empty chunk. -/
theorem c2_chunked_eq_whole_witness :
    chunkDecodeAll [['0', ':', '"', 'a', '"', '\n'], []] =
      chunkDecode ([['0', ':', '"', 'a', '"', '\n'], ([] : List Char)].flatten) :=
  c2_chunked_eq_whole_of_line_aligned [['0', ':', '"', 'a', '"', '\n'], []] (by decide)

/-- Claim C4: a request cycle that fails after any sequence of text
deltas leaves the conversation message list exactly as it was before the
request was dispatched — the optimistically applied request messages
(including the new user message) and the partial assistant content are
replaced by the pre-request snapshot. -/
theorem c4_failure_restores_messages (prev req : List Message) (deltas : List String)
    (rest : List CycleEvent) :
    runCycle prev req (deltas.map CycleEvent.textDelta ++ CycleEvent.fail :: rest) =
      (CycleOutcome.failure, prev) :=
  runCycleAux_fail prev req deltas rest none

/-- Claim C10: submitting with an empty input appends no message,
dispatches no request, and leaves the message list and the input value
unchanged. -/
theorem c10_empty_input_no_dispatch (env : Nat → List CycleEvent)
    (maxAutomaticRoundtrips fuel : Nat) (messages : List Message) :
    handleSubmitModel env maxAutomaticRoundtrips fuel "" messages = (messages, "", 0) := by
  simp [handleSubmitModel]

theorem uiCell_closed_of_done {α : Type} (c c' : UICell α) (a : Option α)
    (h : c.done a = Except.ok c') : c'.closed = true := by
  unfold UICell.done at h
  by_cases hc : c.closed
  · rw [if_pos hc] at h
    exact absurd h (by simp)
  · rw [if_neg hc] at h
    cases a with
    | some v =>
      injection h with h2
      rw [← h2]
    | none =>
      injection h with h2
      rw [← h2]

theorem uiCell_closed_of_error {α : Type} (c c' : UICell α) (e : JSVal)
    (h : c.error e = Except.ok c') : c'.closed = true := by
  unfold UICell.error at h
  by_cases hc : c.closed
  · rw [if_pos hc] at h
    exact absurd h (by simp)
  · rw [if_neg hc] at h
    injection h with h2
    rw [← h2]

theorem valueCell_closed_of_done (d d' : ValueCell) (b : Option JSVal)
    (h : d.done b = Except.ok d') : d'.closed = true := by
  unfold ValueCell.done at h
  by_cases hc : d.closed
  · rw [if_pos hc] at h
    exact absurd h (by simp)
  · rw [if_neg hc] at h
    cases b with
    | some v =>
      injection h with h2
      rw [← h2]
    | none =>
      injection h with h2
      rw [← h2]

theorem valueCell_closed_of_error (d d' : ValueCell) (w : JSVal)
    (h : d.error w = Except.ok d') : d'.closed = true := by
  unfold ValueCell.error at h
  by_cases hc : d.closed
  · rw [if_pos hc] at h
    exact absurd h (by simp)
  · rw [if_neg hc] at h
    injection h with h2
    rw [← h2]

theorem uiCell_throws_of_closed {α : Type} [inst : DecidableEq α] (c : UICell α)
    (v : α) (a : Option α) (e : JSVal) (h : c.closed = true) :
    isThrown (c.update v) = true ∧ isThrown (c.append v) = true ∧
    isThrown (c.error e) = true ∧ isThrown (c.done a) = true := by
  refine ⟨?_, ?_, ?_, ?_⟩ <;>
    simp [UICell.update, UICell.append, UICell.error, UICell.done, h, isThrown]

theorem valueCell_throws_of_closed (d : ValueCell) (w : JSVal) (b : Option JSVal)
    (h : d.closed = true) :
    isThrown (d.update w) = true ∧ isThrown (d.error w) = true ∧
    isThrown (d.done b) = true := by
  refine ⟨?_, ?_, ?_⟩ <;>
    simp [ValueCell.update, ValueCell.error, ValueCell.done, h, isThrown]

/-- Claim C5: once `done()` or `error()` has closed a cell, every
subsequent `update`, `append`, `error` or `done` call throws rather than
being silently ignored, for both the UI variant and the value variant. -/
theorem c5_closed_cell_rejects_writes :
    ∀ {α : Type} [DecidableEq α] (c c' : UICell α) (v : α) (a : Option α)
      (e : JSVal) (d d' : ValueCell) (w : JSVal) (b : Option JSVal),
      (c.done a = Except.ok c' ∨ c.error e = Except.ok c' →
        isThrown (c'.update v) = true ∧ isThrown (c'.append v) = true ∧
        isThrown (c'.error e) = true ∧ isThrown (c'.done a) = true) ∧
      (d.done b = Except.ok d' ∨ d.error w = Except.ok d' →
        isThrown (d'.update w) = true ∧ isThrown (d'.error w) = true ∧
        isThrown (d'.done b) = true) := by
  intro α _inst c c' v a e d d' w b
  constructor
  · intro h
    have hcl : c'.closed = true := by
      cases h with
      | inl h1 => exact uiCell_closed_of_done c c' a h1
      | inr h1 => exact uiCell_closed_of_error c c' e h1
    exact uiCell_throws_of_closed c' v a e hcl
  · intro h
    have hcl : d'.closed = true := by
      cases h with
      | inl h1 => exact valueCell_closed_of_done d d' b h1
      | inr h1 => exact valueCell_closed_of_error d d' w h1
    exact valueCell_throws_of_closed d' w b hcl

/-- Witness for C5: a UI cell closed by `done()` and a value cell closed
by `done()` both throw on a further `update`. -/
theorem c5_closed_cell_rejects_writes_witness :
    isThrown ((⟨0, true, [⟨0, true, false, false⟩], none⟩ : UICell Nat).update 1) = true ∧
    isThrown ((⟨true, JSVal.undef, none, false, none,
      [⟨none, none, none, false, false⟩]⟩ : ValueCell).update JSVal.undef) = true := by
  have h := c5_closed_cell_rejects_writes (createStreamableUI (0 : Nat))
    (⟨0, true, [⟨0, true, false, false⟩], none⟩ : UICell Nat) 1 none JSVal.undef
    (createStreamableValue JSVal.undef)
    (⟨true, JSVal.undef, none, false, none, [⟨none, none, none, false, false⟩]⟩ : ValueCell)
    JSVal.undef none
  exact ⟨(h.1 (Or.inl rfl)).1, (h.2 (Or.inl rfl)).1⟩

/-- Claim C8, counterexample: on the value variant with last known value
`"x"`, calling `done()` with no argument resolves the open tail with the
empty object — an object carrying no value field at all — rather than
with `{value: "x", done: true}`. -/
theorem c8_value_done_empty_object :
    (createStreamableValue (JSVal.str ['x'])).done none =
      Except.ok ⟨true, JSVal.str ['x'], none, false, none,
        [⟨none, none, none, false, false⟩]⟩ ∧
    (⟨none, none, none, false, false⟩ : ValueRev).curr ≠ some (JSVal.str ['x']) := by
  refine ⟨rfl, ?_⟩
  decide

/-- Claim C8, amended: for the UI variant, `done(v)` resolves the open
tail with `{value: v, done: true}` and no `next`, and `done()` with
`{value: lastKnownValue, done: true}` and no `next`.  For the value
variant, `done()` with no argument resolves the open tail with the empty
object (no value, no `next`; the reader keeps its last known value), and
`done(v)` resolves it with no `next` and no error, carrying `v` as a
patch `{diff}` when one applies and as `{curr: v}` otherwise. -/
theorem c8_done_resolves_tail :
    ∀ {α : Type} (c : UICell α) (v : α) (d : ValueCell) (w : JSVal),
      c.closed = false → d.closed = false → d.currentError = none →
      (∃ c1, c.done (some v) = Except.ok c1 ∧
        c1.published = c.published ++ [⟨v, true, false, false⟩]) ∧
      (∃ c2, c.done none = Except.ok c2 ∧
        c2.published = c.published ++ [⟨c.currentValue, true, false, false⟩]) ∧
      (∃ d2, d.done none = Except.ok d2 ∧
        d2.published = d.published ++ [⟨none, none, none, false, false⟩]) ∧
      (∃ d3 rev, d.done (some w) = Except.ok d3 ∧
        d3.published = d.published ++ [rev] ∧ rev.hasNext = false ∧
        rev.errVal = none ∧ rev.typed = false ∧
        ((streamablePatch d.currentValue w).isSome = true →
          rev.diff = streamablePatch d.currentValue w ∧ rev.curr = none) ∧
        (streamablePatch d.currentValue w = none →
          rev.curr = some w ∧ rev.diff = none)) := by
  intro α c v d w hc hd he
  have hcne : ¬(c.closed = true) := by simp [hc]
  have hdne : ¬(d.closed = true) := by simp [hd]
  refine ⟨?_, ?_, ?_, ?_⟩
  · exact ⟨_, by rw [UICell.done, if_neg hcne], rfl⟩
  · exact ⟨_, by rw [UICell.done, if_neg hcne], rfl⟩
  · exact ⟨_, by rw [ValueCell.done, if_neg hdne], rfl⟩
  · refine ⟨_, createWrapped { updateValueStates d w with
      closed := true, hasCurrentPromise := false } false,
      by rw [ValueCell.done, if_neg hdne], rfl, ?_, ?_, ?_, ?_, ?_⟩
    · simp [createWrapped, updateValueStates, he]
    · simp only [createWrapped, updateValueStates, he]
      cases streamablePatch d.currentValue w <;> rfl
    · simp [createWrapped, updateValueStates, he]
    · intro hp
      cases hpv : streamablePatch d.currentValue w with
      | none => rw [hpv] at hp; exact absurd hp (by simp)
      | some p => simp [createWrapped, updateValueStates, he, hpv]
    · intro hp
      simp [createWrapped, updateValueStates, he, hp]

/-- Witness for C8: the UI variant's argument-less `done` and the value
variant's argument-less `done` at concrete open cells. -/
theorem c8_done_resolves_tail_witness :
    (∃ c2, (createStreamableUI (0 : Nat)).done none = Except.ok c2 ∧
      c2.published = (createStreamableUI (0 : Nat)).published ++
        [⟨(createStreamableUI (0 : Nat)).currentValue, true, false, false⟩]) ∧
    (∃ d2, (createStreamableValue JSVal.undef).done none = Except.ok d2 ∧
      d2.published = (createStreamableValue JSVal.undef).published ++
        [⟨none, none, none, false, false⟩]) := by
  have h := c8_done_resolves_tail (createStreamableUI (0 : Nat)) 1
    (createStreamableValue JSVal.undef) JSVal.undef rfl rfl rfl
  exact ⟨h.2.1, h.2.2.1⟩

/-- Claim C9: on an open cell, each `update` grows the published revision
chain by exactly one — except that the UI variant's `update` with a value
referentially identical to the previous one is a no-op (the cell is
returned unchanged, only the idle-warning timer is reset); the value
variant always publishes exactly one revision per `update`. -/
theorem c9_update_growth :
    ∀ {α : Type} [DecidableEq α] (c : UICell α) (v : α) (d : ValueCell) (w : JSVal),
      c.closed = false → d.closed = false →
      (v ≠ c.currentValue →
        ∃ c1, c.update v = Except.ok c1 ∧
          c1.published.length = c.published.length + 1) ∧
      (v = c.currentValue → c.update v = Except.ok c) ∧
      (∃ d1, d.update w = Except.ok d1 ∧
        d1.published.length = d.published.length + 1) := by
  intro α _inst c v d w hc hd
  have hcne : ¬(c.closed = true) := by simp [hc]
  have hdne : ¬(d.closed = true) := by simp [hd]
  refine ⟨?_, ?_, ?_⟩
  · intro hv
    refine ⟨_, by rw [UICell.update, if_neg hcne, if_neg hv], ?_⟩
    simp
  · intro hv
    rw [UICell.update, if_neg hcne, if_pos hv]
  · refine ⟨_, by rw [ValueCell.update, if_neg hdne], ?_⟩
    simp [updateValueStates]

/-- Witness for C9: a fresh UI cell grows by one on a distinct value, is
unchanged on an identical value, and a fresh value cell grows by one. -/
theorem c9_update_growth_witness :
    ((1 : Nat) ≠ (createStreamableUI (0 : Nat)).currentValue →
      ∃ c1, (createStreamableUI (0 : Nat)).update 1 = Except.ok c1 ∧
        c1.published.length = (createStreamableUI (0 : Nat)).published.length + 1) ∧
    ((1 : Nat) = (createStreamableUI (0 : Nat)).currentValue →
      (createStreamableUI (0 : Nat)).update 1 = Except.ok (createStreamableUI (0 : Nat))) ∧
    (∃ d1, (createStreamableValue JSVal.undef).update (JSVal.str ['a']) = Except.ok d1 ∧
      d1.published.length = (createStreamableValue JSVal.undef).published.length + 1) :=
  c9_update_growth (createStreamableUI (0 : Nat)) 1
    (createStreamableValue JSVal.undef) (JSVal.str ['a']) rfl rfl

/-- Claim C6: a cycle cancelled mid-stream after at least one text delta
keeps the partial assistant content already merged into the conversation
state (no rollback), surfaces no error, and returns before the roundtrip
controller's auto-submit check is evaluated — zero automatic
re-dispatches, whatever the configured bound. -/
theorem c6_cancel_keeps_partial_skips_roundtrip
    (env : Nat → List CycleEvent) (maxAutomaticRoundtrips fuel : Nat)
    (prev req : List Message) (deltas : List String) (rest : List CycleEvent)
    (henv : env 0 = deltas.map CycleEvent.textDelta ++ CycleEvent.cancel :: rest)
    (hne : deltas ≠ []) :
    triggerRequestModel env maxAutomaticRoundtrips (fuel + 1) 0 prev req =
      (req ++ [mkAssistantMessage (deltas.foldl (fun a b => a ++ b) "")], 0) := by
  cases deltas with
  | nil => exact absurd rfl hne
  | cons d ds =>
    have hrun : runCycle prev req (env 0) =
        (CycleOutcome.aborted,
          req ++ [mkAssistantMessage ((d :: ds).foldl (fun a b => a ++ b) "")]) := by
      rw [henv]
      show runCycleAux prev req none
          (CycleEvent.textDelta d :: (ds.map CycleEvent.textDelta ++ CycleEvent.cancel :: rest)) =
        _
      rw [show runCycleAux prev req none
          (CycleEvent.textDelta d :: (ds.map CycleEvent.textDelta ++ CycleEvent.cancel :: rest)) =
          runCycleAux prev req (some ("" ++ d))
            (ds.map CycleEvent.textDelta ++ CycleEvent.cancel :: rest) from rfl]
      rw [runCycleAux_cancel prev req rest ds ("" ++ d)]
      rfl
    rw [show triggerRequestModel env maxAutomaticRoundtrips (fuel + 1) 0 prev req =
        (match (runCycle prev req (env 0)).1 with
         | CycleOutcome.aborted => ((runCycle prev req (env 0)).2, 0)
         | _ =>
           if autoSubmitCheck (runCycle prev req (env 0)).2 maxAutomaticRoundtrips then
             let next := triggerRequestModel env maxAutomaticRoundtrips fuel 1
               (runCycle prev req (env 0)).2 (runCycle prev req (env 0)).2
             (next.1, next.2 + 1)
           else ((runCycle prev req (env 0)).2, 0)) from rfl]
    rw [hrun]

/-- Witness for C6: cancelling after one delta `"Hi"` with bound 1. -/
theorem c6_cancel_keeps_partial_skips_roundtrip_witness :
    triggerRequestModel (fun _ => [CycleEvent.textDelta "Hi", CycleEvent.cancel]) 1 1 0
        [] [⟨"u1", Role.user, "hi", none⟩] =
      ([⟨"u1", Role.user, "hi", none⟩,
        mkAssistantMessage (["Hi"].foldl (fun a b => a ++ b) "")], 0) :=
  c6_cancel_keeps_partial_skips_roundtrip
    (fun _ => [CycleEvent.textDelta "Hi", CycleEvent.cancel]) 1 0
    [] [⟨"u1", Role.user, "hi", none⟩] ["Hi"] [] rfl (by simp)

/-- Claim C3: the auto-submit check re-dispatches exactly when the newest
message exists and has role assistant, its tool-invocation table is
present and non-empty, every invocation carries a result, the
maximum-roundtrip bound is positive, and the trailing-assistant count
does not exceed the bound; and attaching the missing result through
`experimental_addToolResult` with bound 1 triggers exactly one automatic
re-dispatch. -/
theorem c3_roundtrip_controller :
    (∀ (messages : List Message) (bound : Nat),
      autoSubmitCheck messages bound = true ↔
        ∃ lastMessage, messages.getLast? = some lastMessage ∧
          lastMessage.role = Role.assistant ∧
          (∃ tis, lastMessage.toolInvocations = some tis ∧ tis ≠ [] ∧
            ∀ ti ∈ tis, ti.result.isSome = true) ∧
          0 < bound ∧
          countTrailingAssistantMessages messages ≤ bound) ∧
    (addToolResultModel (fun _ => [CycleEvent.textDelta "ok"]) 1 5 c3ScenarioMessages
      "t1" "res").2 = 1 := by
  constructor
  · intro messages bound
    unfold autoSubmitCheck
    cases hlast : messages.getLast? with
    | none => simp
    | some lastMessage =>
      simp only [Bool.and_eq_true, decide_eq_true_eq]
      unfold isAssistantMessageWithCompletedToolCalls
      cases hti : lastMessage.toolInvocations with
      | none =>
        simp [hti]
      | some tis =>
        simp [hti, List.all_eq_true]
        constructor
        · rintro ⟨⟨hb, hrole, hlen, hall⟩, hcount⟩
          exact ⟨hrole, ⟨List.length_pos.mp hlen, hall⟩, hb, hcount⟩
        · rintro ⟨hrole, ⟨hne, hall⟩, hb, hcount⟩
          exact ⟨⟨hb, hrole, List.length_pos.mpr hne, hall⟩, hcount⟩
  · rfl

/-- Witness for C3: a conversation ending in an assistant message whose
single tool invocation carries a result passes the auto-submit check at
bound 1. -/
theorem c3_roundtrip_controller_witness :
    autoSubmitCheck c3CompletedMessages 1 = true :=
  (c3_roundtrip_controller.1 c3CompletedMessages 1).mpr
    ⟨⟨"a1", Role.assistant, "", some [⟨"t1", "lookup", "q", some "res"⟩]⟩, rfl, rfl,
      ⟨[⟨"t1", "lookup", "q", some "res"⟩], rfl, by simp, by simp⟩,
      by decide, by decide⟩

theorem hexDigitChar_ne_nl (n : Nat) (h : n < 16) : hexDigitChar n ≠ '\n' := by
  interval_cases n <;> decide

theorem jsonEscapeChar_no_nl (c : Char) : '\n' ∉ jsonEscapeChar c := by
  unfold jsonEscapeChar
  split_ifs with h1 h2 h3 h4 h5 h6 h7 h8
  · decide
  · decide
  · decide
  · decide
  · decide
  · decide
  · decide
  · have hd1 : hexDigitChar (c.toNat / 16) ≠ '\n' := hexDigitChar_ne_nl _ (by omega)
    have hd2 : hexDigitChar (c.toNat % 16) ≠ '\n' := hexDigitChar_ne_nl _ (by omega)
    intro hm
    simp only [List.mem_cons, List.not_mem_nil, or_false] at hm
    rcases hm with h | h | h | h | h | h
    · exact absurd h (by decide)
    · exact absurd h (by decide)
    · exact absurd h (by decide)
    · exact absurd h (by decide)
    · exact hd1 h.symm
    · exact hd2 h.symm
  · intro hm
    simp only [List.mem_cons, List.not_mem_nil, or_false] at hm
    exact h3 hm.symm

theorem nl_not_mem_append {l1 l2 : List Char} (h1 : '\n' ∉ l1) (h2 : '\n' ∉ l2) :
    '\n' ∉ l1 ++ l2 := fun hm => (List.mem_append.mp hm).elim h1 h2

theorem nl_not_mem_cons {c : Char} {l : List Char} (hc : c ≠ '\n') (h : '\n' ∉ l) :
    '\n' ∉ c :: l := fun hm => (List.mem_cons.mp hm).elim (fun he => hc he.symm) h

theorem jsonStrEnc_no_nl (s : List Char) : '\n' ∉ jsonStrEnc s := by
  unfold jsonStrEnc
  intro hm
  rcases List.mem_cons.mp hm with h | hm2
  · exact absurd h (by decide)
  rcases List.mem_append.mp hm2 with h3 | h4
  · rcases List.mem_flatten.mp h3 with ⟨l, hl, hnl⟩
    rcases List.mem_map.mp hl with ⟨c, _, hc⟩
    rw [← hc] at hnl
    exact jsonEscapeChar_no_nl c hnl
  · exact absurd (List.mem_singleton.mp h4) (by decide)

theorem statusInfoPart_no_nl (o : Option (List Char)) : '\n' ∉ statusInfoPart o := by
  cases o with
  | none => simp [statusInfoPart]
  | some i =>
    exact nl_not_mem_cons (by decide) (nl_not_mem_append (by decide) (jsonStrEnc_no_nl i))

theorem statusJsonEnc_no_nl (st : AssistantStatus) : '\n' ∉ statusJsonEnc st := by
  unfold statusJsonEnc
  exact nl_not_mem_cons (by decide)
    (nl_not_mem_append
      (nl_not_mem_append
        (nl_not_mem_append (by decide) (jsonStrEnc_no_nl _))
        (statusInfoPart_no_nl _))
      (by decide))

theorem commaSep_no_nl :
    ∀ (l : List (List Char)), (∀ x ∈ l, '\n' ∉ x) → '\n' ∉ commaSep l
  | [], _ => by simp [commaSep]
  | [x], h => by simpa [commaSep] using h x (by simp)
  | x :: y :: rest, h => by
    rw [show commaSep (x :: y :: rest) = x ++ ',' :: commaSep (y :: rest) from rfl]
    exact nl_not_mem_append (h x (by simp))
      (nl_not_mem_cons (by decide)
        (commaSep_no_nl (y :: rest) (fun z hz => h z (by simp [hz]))))

theorem contentItemEnc_no_nl (v : List Char) : '\n' ∉ contentItemEnc v := by
  unfold contentItemEnc
  exact nl_not_mem_cons (by decide)
    (nl_not_mem_append
      (nl_not_mem_append (by decide)
        (nl_not_mem_cons (by decide)
          (nl_not_mem_append
            (nl_not_mem_append (by decide) (jsonStrEnc_no_nl v))
            (by decide))))
      (by decide))

theorem messageJsonEnc_no_nl (m : AssistantMessage) : '\n' ∉ messageJsonEnc m := by
  unfold messageJsonEnc
  refine nl_not_mem_cons (by decide)
    (nl_not_mem_append
      (nl_not_mem_append
        (nl_not_mem_append
          (nl_not_mem_append (by decide) (jsonStrEnc_no_nl _))
          (by decide))
        ?_)
      (by decide))
  refine commaSep_no_nl _ (fun x hx => ?_)
  rcases List.mem_map.mp hx with ⟨v, _, hv⟩
  rw [← hv]
  exact contentItemEnc_no_nl v

theorem count_body_two_nl (body : List Char) (h : '\n' ∉ body) :
    (body ++ ['\n', '\n']).count '\n' = 2 := by
  rw [List.count_append, List.count_eq_zero.mpr h]
  decide

/-- Claim C7, counterexample: the thread-id chunk for `"t1"` contains two
line breaks, not exactly one — the encoder appends `\n\n` after every
event, so no emitted chunk is a single line terminated by exactly one
line break. -/
theorem c7_single_break_refuted :
    (sendThreadIdChunk ['t', '1']).count '\n' = 2 ∧
    (sendThreadIdChunk ['t', '1']).count '\n' ≠ 1 := by decide

/-- Claim C7, amended: every encoded event is the single line
`<prefix>: <jsonPayload>` followed by exactly two line breaks (the line
plus a trailing blank line): the characters up to the first colon are the
event-kind prefix, the remainder of the line is a single space followed
by the JSON payload, the payload contains no line break, and the chunk
contains exactly two line breaks, both at the end. -/
theorem c7_encoder_line_shape :
    ∀ (st : AssistantStatus) (t : List Char) (m : AssistantMessage),
      (sendStatusChunk st = '3' :: ':' :: ' ' :: statusJsonEnc st ++ ['\n', '\n'] ∧
       '\n' ∉ statusJsonEnc st ∧ (sendStatusChunk st).count '\n' = 2 ∧
       (sendStatusChunk st).takeWhile (fun c => !(c == ':')) = ['3']) ∧
      (sendThreadIdChunk t = '4' :: ':' :: ' ' :: jsonStrEnc t ++ ['\n', '\n'] ∧
       '\n' ∉ jsonStrEnc t ∧ (sendThreadIdChunk t).count '\n' = 2 ∧
       (sendThreadIdChunk t).takeWhile (fun c => !(c == ':')) = ['4']) ∧
      (sendMessageChunk m = '0' :: ':' :: ' ' :: messageJsonEnc m ++ ['\n', '\n'] ∧
       '\n' ∉ messageJsonEnc m ∧ (sendMessageChunk m).count '\n' = 2 ∧
       (sendMessageChunk m).takeWhile (fun c => !(c == ':')) = ['0']) := by
  intro st t m
  refine ⟨⟨rfl, statusJsonEnc_no_nl st, ?_, rfl⟩,
    ⟨rfl, jsonStrEnc_no_nl t, ?_, rfl⟩,
    ⟨rfl, messageJsonEnc_no_nl m, ?_, rfl⟩⟩
  · have hb := count_body_two_nl (statusJsonEnc st) (statusJsonEnc_no_nl st)
    show List.count '\n' ('3' :: ':' :: ' ' :: (statusJsonEnc st ++ ['\n', '\n'])) = 2
    simp [List.count_cons, hb]
  · have hb := count_body_two_nl (jsonStrEnc t) (jsonStrEnc_no_nl t)
    show List.count '\n' ('4' :: ':' :: ' ' :: (jsonStrEnc t ++ ['\n', '\n'])) = 2
    simp [List.count_cons, hb]
  · have hb := count_body_two_nl (messageJsonEnc m) (messageJsonEnc_no_nl m)
    show List.count '\n' ('0' :: ':' :: ' ' :: (messageJsonEnc m ++ ['\n', '\n'])) = 2
    simp [List.count_cons, hb]
